import Mathlib

/-!
# Verification of the pandora code-sandbox service

Shallow embedding of `src/app/sandbox_manager.py` (and the identical logic in
`src/app/main.py`) of the repository Bkbest/pandora, together with proofs of
the testable properties stated in the design specification.

Modelling conventions:
* Host filesystem paths are lists of path segments (`List String`), read as an
  absolute POSIX path from the filesystem root.  The filesystem is symlink-free,
  so `Path.resolve()` is the lexical normalisation of `.` and `..` segments.
* The host filesystem state is a list of existing directories plus an
  association list of regular files (path, text content).
* The docker daemon is an oracle (`Runtime`): fields say whether
  `containers.run` or `Container.remove` raise, and give the result of
  `Container.exec_run`.  The set of existing containers is the `containers`
  field of the system state.  Every docker interaction is logged in a trace.
* Python exceptions that the service raises deliberately (`HTTPException`)
  and OS or docker exceptions that it lets escape are both modelled by the
  error type `Err`; only `Err.http` carries a transport status code.
-/

instance {ε α : Type} [DecidableEq ε] [DecidableEq α] : DecidableEq (Except ε α) :=
  fun x y =>
    match x, y with
    | .ok a, .ok b =>
      if h : a = b then .isTrue (by rw [h])
      else .isFalse (by intro hc; cases hc; exact h rfl)
    | .error a, .error b =>
      if h : a = b then .isTrue (by rw [h])
      else .isFalse (by intro hc; cases hc; exact h rfl)
    | .ok _, .error _ => .isFalse (by intro hc; cases hc)
    | .error _, .ok _ => .isFalse (by intro hc; cases hc)

/-- Python `s.split(sep)` for a one-character separator, on the character
list of the string: empty pieces are kept, so the result is never `[]`. -/
def splitOnChar (sep : Char) : List Char → List (List Char)
  | [] => [[]]
  | c :: rest =>
    match splitOnChar sep rest with
    | [] => [[c]]
    | g :: gs => if c = sep then [] :: g :: gs else (c :: g) :: gs

/-- Joining character groups with a separator character (inverse of
`splitOnChar` on separator-free groups). -/
def joinChar (sep : Char) : List (List Char) → List Char
  | [] => []
  | [g] => g
  | g :: gs => g ++ sep :: joinChar sep gs

/-- Joining path segments with `"/"`, as `str()` renders the parts of a
relative `pathlib` path. -/
def joinSlash : List String → String
  | [] => ""
  | [s] => s
  | s :: rest => s ++ "/" ++ joinSlash rest

/-- The character substitution performed by `.replace("\\", "/")`. -/
def deBackslash (c : Char) : Char := if c = '\\' then '/' else c

/-- The universal-newline translation text-mode reads perform
(`open(..., newline=None)`, as `Path.read_text` uses): `\r\n` and a lone
`\r` both become `\n`.  Text-mode writes on Linux translate `\n` to
`os.linesep`, which is `\n`, so `Path.write_text` stores the text
verbatim. -/
def univNewlines : List Char → List Char
  | [] => []
  | [c] => if c = '\r' then ['\n'] else [c]
  | c :: c2 :: rest =>
    if c = '\r' then
      if c2 = '\n' then '\n' :: univNewlines rest
      else '\n' :: univNewlines (c2 :: rest)
    else c :: univNewlines (c2 :: rest)

/-- Python `str.lstrip("/\\")`: drop leading slashes and backslashes. -/
def lstripSlashes (s : String) : String :=
  String.mk (s.data.dropWhile (fun c => c = '/' || c = '\\'))

/-- Python `s.endswith(suffix)`. -/
def strEndsWith (s suffix : String) : Bool :=
  s.data.reverse.take suffix.data.length == suffix.data.reverse

/-- Whether a string begins with the character `/`. -/
def headIsSlash (s : String) : Bool :=
  match s.data with
  | c :: _ => c == '/'
  | [] => false

/-- The parts of a `pathlib.PurePosixPath`, root excluded: split on `/`,
dropping empty pieces and `.` pieces (`..` pieces are kept). -/
def pathSegs (s : String) : List String :=
  ((splitOnChar '/' s.data).filter (fun g => g != [] && g != ['.'])).map
    (fun g => String.mk g)

/-- The segments `SandboxManager.safe_path` joins onto the base directory:
`rel_path.lstrip("/\\")` parsed by `pathlib`. -/
def relSegs (s : String) : List String := pathSegs (lstripSlashes s)

/-- Lexical effect of `Path.resolve()` on `base` extended with `segs` in a
symlink-free filesystem: `..` drops the last segment (and is a no-op at the
filesystem root), every other segment is appended. -/
def resolveSegs (base : List String) (segs : List String) : List String :=
  segs.foldl (fun acc s => if s = ".." then acc.dropLast else acc ++ [s]) base

/-- `a` is a (not necessarily proper) leading run of segments of `b`; this is
exactly `a == b or a in b.parents` for canonical absolute paths. -/
def segPre : List String → List String → Bool
  | [], _ => true
  | _ :: _, [] => false
  | a :: as, b :: bs => a == b && segPre as bs

/-- The root of a `pathlib.PurePosixPath` string: `//` when the string starts
with exactly two slashes, `/` when it starts with a slash otherwise, else
empty — `_PosixFlavour.splitroot`. -/
def pyRoot (s : String) : String :=
  match s.data with
  | [] => ""
  | c1 :: rest1 =>
    if c1 = '/' then
      match rest1 with
      | [] => "/"
      | c2 :: rest2 =>
        if c2 = '/' then
          match rest2 with
          | [] => "//"
          | c3 :: _ => if c3 = '/' then "/" else "//"
        else "/"
    else ""

/-- A parsed `pathlib.PurePosixPath`: root and non-root parts. -/
structure PPath where
  root : String
  parts : List String
deriving DecidableEq

/-- Parse a string as `pathlib.PurePosixPath` does. -/
def parsePosix (s : String) : PPath := { root := pyRoot s, parts := pathSegs s }

/-- `PurePosixPath.__truediv__`: if the right operand has a root, it replaces
the left operand entirely; otherwise the parts are concatenated. -/
def joinPosix (a b : PPath) : PPath :=
  if b.root != "" then b else { root := a.root, parts := a.parts ++ b.parts }

/-- `str()` of a `PurePosixPath`: the root followed by the parts joined with
`/`; the empty relative path renders as `.`. -/
def renderPosix (p : PPath) : String :=
  if p.root == "" && p.parts == [] then "." else p.root ++ joinSlash p.parts

/-- `str(Path(workdir) / path).replace("\\", "/")`, the expression both
`execute` and `install_packages` use to build in-container paths. -/
def pyJoin (workdir path : String) : String :=
  String.mk ((renderPosix (joinPosix (parsePosix workdir) (parsePosix path))).data.map
    deBackslash)

/-- `str(p.relative_to(base)).replace("\\", "/")` for a path `p` strictly
under `base`, as `list_files` renders each found file. -/
def renderRel (base p : List String) : String :=
  String.mk ((joinSlash (p.drop base.length)).data.map deBackslash)

/-- Code-point-wise lexicographic order on strings, the order Python
`list.sort()` uses on `str`. -/
def listCharLe : List Char → List Char → Bool
  | [], _ => true
  | _ :: _, [] => false
  | a :: as, b :: bs =>
    a.toNat < b.toNat || (a.toNat == b.toNat && listCharLe as bs)

/-- String comparison used to state that a listing is sorted. -/
def strLe (a b : String) : Bool := listCharLe a.data b.data

/-- `detail` payload of an `HTTPException`: either a plain message or the
structured payload raised by `install_packages` on installer failure. -/
inductive Detail where
  | msg (s : String)
  | installFailure (exit_code : Int) (stdout stderr note : String)
deriving DecidableEq

/-- A Python exception escaping a manager operation: a deliberate
`HTTPException(status_code, detail)`, an uncaught OS error (by exception
class name), or an uncaught docker-runtime error. -/
inductive Err where
  | http (status : Nat) (detail : Detail)
  | os (name : String)
  | runtime (msg : String)
deriving DecidableEq

/-- The transport status a manager error carries: only `HTTPException`s have
one; uncaught exceptions surface as internal server errors. -/
def errStatus : Err → Option Nat
  | .http s _ => some s
  | _ => none

/-- `HTTPException(400, "Invalid path")` raised by `safe_path`. -/
def invalidPath : Err := .http 400 (.msg "Invalid path")

/-- Host filesystem plus the set of existing containers. -/
structure Sys where
  dirs : List (List String)
  files : List (List String × String)
  containers : List String
deriving DecidableEq

/-- The construction-time configuration of `SandboxManager` (`sandbox_root`
already resolved; `container_stem` models the `container_prefix` field). -/
structure Config where
  sandbox_root : List String
  container_stem : String
  workdir_in_container : String
  network_disabled : Bool
deriving DecidableEq

/-- Oracle for the docker daemon: whether `containers.run` raises, whether
`Container.remove` raises, and the `(exit_code, stdout, stderr)` that
`exec_run` reports for a command in a container (output bytes already decoded
as UTF-8 with replacement). -/
structure Runtime where
  run_fails : Option String
  remove_fails : Option String
  exec_run : String → List String → Int × String × String

/-- One logged interaction with the docker daemon. -/
inductive RtCall where
  | get (name : String)
  | run (name : String)
  | remove (name : String)
  | exec (name : String) (cmd : List String) (env : List (String × String))
deriving DecidableEq

/-- `Path.is_file()`-style lookup: the first file entry at `p`. -/
def findFile (σ : Sys) (p : List String) : Option (List String × String) :=
  σ.files.find? (fun f => f.1 == p)

/-- `p` exists as a regular file. -/
def isFile (σ : Sys) (p : List String) : Bool := (findFile σ p).isSome

/-- `p` exists as a directory. -/
def isDir (σ : Sys) (p : List String) : Bool := σ.dirs.contains p

/-- `Path.exists()`. -/
def pathExists (σ : Sys) (p : List String) : Bool := isDir σ p || isFile σ p

/-- All nonempty initial segment runs of `p`: the ancestors `mkdir` has to
create, innermost last, `p` itself included. -/
def initSegs (p : List String) : List (List String) :=
  (List.range p.length).map (fun i => p.take (i + 1))

/-- `Path.mkdir(parents=True, exist_ok=True)`: fails if a needed path exists
as a regular file, otherwise records every missing ancestor as a directory. -/
def mkdirp (σ : Sys) (p : List String) : Except Err Sys :=
  if (initSegs p).any (fun q => isFile σ q) then .error (.os "FileExistsError")
  else .ok { σ with
    dirs := (initSegs p).filter (fun q => !(σ.dirs.contains q)) ++ σ.dirs }

/-- `Path.mkdir(parents=True, exist_ok=False)`: additionally fails with
`FileExistsError` when `p` itself already exists. -/
def mkdirExclusive (σ : Sys) (p : List String) : Except Err Sys :=
  if pathExists σ p then .error (.os "FileExistsError")
  else if (initSegs p).any (fun q => isFile σ q) then .error (.os "FileExistsError")
  else .ok { σ with
    dirs := (initSegs p).filter (fun q => !(σ.dirs.contains q)) ++ σ.dirs }

/-- `shutil.rmtree(p, ignore_errors=True)`: drop `p` and everything under it,
never failing. -/
def rmtree (σ : Sys) (p : List String) : Sys :=
  { σ with dirs := σ.dirs.filter (fun d => !(segPre p d)),
           files := σ.files.filter (fun f => !(segPre p f.1)) }

/-- `SandboxManager.container_name` (and `_container_name` in `main.py`). -/
def container_name (cfg : Config) (sandbox_id : String) : String :=
  cfg.container_stem ++ "-" ++ sandbox_id

/-- `SandboxManager.sandbox_dir` (and `_sandbox_dir` in `main.py`). -/
def sandbox_dir (cfg : Config) (sandbox_id : String) : List String :=
  cfg.sandbox_root ++ [sandbox_id]

/-- `SandboxManager.safe_path` (`_safe_path` in `main.py` is the
`allow_base = false` case): strip leading separators, resolve against the
base directory, and accept the result only when the base is a proper ancestor
(or the base itself when `allow_base`). -/
def safe_path (base_dir : List String) (rel_path : String) (allow_base : Bool) :
    Except Err (List String) :=
  let p := resolveSegs base_dir (relSegs rel_path)
  if p = base_dir then
    if allow_base then .ok p else .error invalidPath
  else if segPre base_dir p then .ok p
  else .error invalidPath

/-- The error raised by the file-facing operations when the workspace
directory is missing: `get_container` first raises 404 `Sandbox not found`
if the container is also gone, otherwise 404 `Sandbox directory missing`. -/
def missing_base (cfg : Config) (σ : Sys) (sandbox_id : String) : Err :=
  if σ.containers.contains (container_name cfg sandbox_id) then
    .http 404 (.msg "Sandbox directory missing")
  else .http 404 (.msg "Sandbox not found")

/-- `SandboxManager.create_sandbox`, with the freshly generated
`uuid.uuid4().hex` passed in as `sandbox_id`.  Returns the result, the final
system state, and the trace of docker calls. -/
def create_sandbox (cfg : Config) (rt : Runtime) (σ : Sys) (sandbox_id : String) :
    Except Err String × Sys × List RtCall :=
  match mkdirp σ cfg.sandbox_root with
  | .error e => (.error e, σ, [])
  | .ok σ1 =>
    let host_dir := sandbox_dir cfg sandbox_id
    match mkdirExclusive σ1 host_dir with
    | .error e => (.error e, σ1, [])
    | .ok σ2 =>
      let name := container_name cfg sandbox_id
      match rt.run_fails with
      | some m => (.error (.runtime m), rmtree σ2 host_dir, [.run name])
      | none => (.ok sandbox_id,
          { σ2 with containers := name :: σ2.containers }, [.run name])

/-- `SandboxManager.delete_sandbox`: look the container up (404 if absent),
force-remove it, and remove the workspace directory in a `finally` block, so
the directory removal happens whether or not container removal raises. -/
def delete_sandbox (cfg : Config) (rt : Runtime) (σ : Sys) (sandbox_id : String) :
    Except Err Unit × Sys × List RtCall :=
  let name := container_name cfg sandbox_id
  if σ.containers.contains name then
    match rt.remove_fails with
    | none =>
      (.ok (), rmtree { σ with containers := σ.containers.filter (fun c => c != name) }
        (sandbox_dir cfg sandbox_id), [.get name, .remove name])
    | some m =>
      (.error (.runtime m), rmtree σ (sandbox_dir cfg sandbox_id),
        [.get name, .remove name])
  else (.error (.http 404 (.msg "Sandbox not found")), σ, [.get name])

/-- `SandboxManager.list_files`: resolve `dir` with the base allowed, then
recursively collect every regular file strictly under the resolved directory,
rendered relative to the workspace root with `/` separators, and sort. -/
def list_files (cfg : Config) (_rt : Runtime) (σ : Sys) (sandbox_id : String)
    (dir : String) : Except Err (List String) × Sys × List RtCall :=
  let base := sandbox_dir cfg sandbox_id
  if !(pathExists σ base) then
    (.error (missing_base cfg σ sandbox_id), σ, [.get (container_name cfg sandbox_id)])
  else
    match safe_path base dir true with
    | .error e => (.error e, σ, [])
    | .ok list_dir =>
      if !(pathExists σ list_dir && isDir σ list_dir) then
        (.error (.http 404 (.msg "Directory not found")), σ, [])
      else
        let found := (σ.files.filter
          (fun f => segPre list_dir f.1 && f.1 != list_dir)).map
            (fun f => renderRel base f.1)
        (.ok (found.insertionSort (fun a b => strLe a b = true)), σ, [])

/-- `SandboxManager.upsert_file`: resolve the path (root disallowed), create
missing parent directories, then overwrite the file with the given text. -/
def upsert_file (cfg : Config) (_rt : Runtime) (σ : Sys) (sandbox_id : String)
    (path : String) (content : String) : Except Err Unit × Sys × List RtCall :=
  let base := sandbox_dir cfg sandbox_id
  if !(pathExists σ base) then
    (.error (missing_base cfg σ sandbox_id), σ, [.get (container_name cfg sandbox_id)])
  else
    match safe_path base path false with
    | .error e => (.error e, σ, [])
    | .ok target =>
      match mkdirp σ target.dropLast with
      | .error e => (.error e, σ, [])
      | .ok σ1 =>
        if isDir σ1 target then (.error (.os "IsADirectoryError"), σ1, [])
        else (.ok (), { σ1 with
          files := σ1.files.filter (fun f => f.1 != target) ++ [(target, content)] }, [])

/-- `SandboxManager.delete_file`: resolve the path (root disallowed) and
unlink the target only when it exists and is a regular file. -/
def delete_file (cfg : Config) (_rt : Runtime) (σ : Sys) (sandbox_id : String)
    (file_path : String) : Except Err Unit × Sys × List RtCall :=
  let base := sandbox_dir cfg sandbox_id
  if !(pathExists σ base) then
    (.error (missing_base cfg σ sandbox_id), σ, [.get (container_name cfg sandbox_id)])
  else
    match safe_path base file_path false with
    | .error e => (.error e, σ, [])
    | .ok target =>
      if pathExists σ target && isFile σ target then
        (.ok (), { σ with files := σ.files.filter (fun f => f.1 != target) }, [])
      else (.ok (), σ, [])

/-- `SandboxManager.read_file`: resolve the path (root disallowed), 404 when
the target does not exist, 400 when it is not a regular file, else return the
stored text read back through `read_text`, whose text mode applies the
universal-newline translation (`\r\n` and `\r` become `\n`). -/
def read_file (cfg : Config) (_rt : Runtime) (σ : Sys) (sandbox_id : String)
    (file_path : String) : Except Err String × Sys × List RtCall :=
  let base := sandbox_dir cfg sandbox_id
  if !(pathExists σ base) then
    (.error (missing_base cfg σ sandbox_id), σ, [.get (container_name cfg sandbox_id)])
  else
    match safe_path base file_path false with
    | .error e => (.error e, σ, [])
    | .ok target =>
      if !(pathExists σ target) then
        (.error (.http 404 (.msg "File not found")), σ, [])
      else if !(isFile σ target) then
        (.error (.http 400 (.msg "Path is not a file")), σ, [])
      else
        match findFile σ target with
        | some f => (.ok (String.mk (univNewlines f.2.data)), σ, [])
        | none => (.error (.os "FileNotFoundError"), σ, [])

/-- The command `execute` runs inside the container:
`["python", str(Path(workdir_in_container) / path).replace("\\", "/")] + args`. -/
def executeCmd (cfg : Config) (path : String) (args : List String) : List String :=
  "python" :: pyJoin cfg.workdir_in_container path :: args

/-- The in-container installed-package directory
`str(Path(workdir_in_container) / ".python_packages").replace("\\", "/")`. -/
def pkgDir (cfg : Config) : String := pyJoin cfg.workdir_in_container ".python_packages"

/-- `SandboxManager.execute`: reject non-`.py` paths first, then check the
workspace, resolve and check the target file on the host, and finally run the
interpreter inside the container against the join of the in-container working
directory with the caller's original path string, with `PYTHONPATH` pointing
at the installed-package directory. -/
def execute (cfg : Config) (rt : Runtime) (σ : Sys) (sandbox_id : String)
    (path : String) (args : List String) :
    Except Err (Int × String × String) × Sys × List RtCall :=
  if !(strEndsWith path ".py") then
    (.error (.http 400 (.msg "Only .py files can be executed")), σ, [])
  else
    let base := sandbox_dir cfg sandbox_id
    if !(pathExists σ base) then
      (.error (missing_base cfg σ sandbox_id), σ, [.get (container_name cfg sandbox_id)])
    else
      match safe_path base path false with
      | .error e => (.error e, σ, [])
      | .ok target =>
        if !(pathExists σ target && isFile σ target) then
          (.error (.http 404 (.msg "File not found")), σ, [])
        else
          let name := container_name cfg sandbox_id
          if σ.containers.contains name then
            let cmd := executeCmd cfg path args
            let r := rt.exec_run name cmd
            (.ok r, σ, [.get name, .exec name cmd [("PYTHONPATH", pkgDir cfg)]])
          else (.error (.http 404 (.msg "Sandbox not found")), σ, [.get name])

/-- The guidance attached to a failed installer run. -/
def pipNote : String :=
  "If this is a network error and you want to allow pip downloads, run the service with SANDBOX_NETWORK_DISABLED=0 (default)."

/-- The pip command `install_packages` runs inside the container. -/
def pipCmd (cfg : Config) (packages : List String) : List String :=
  ["python", "-m", "pip", "install", "--no-cache-dir",
    "--disable-pip-version-check", "--target", pkgDir cfg] ++ packages

/-- `SandboxManager.install_packages`: reject an empty list first, then check
the workspace and container, run pip with `--target` at the package
directory, and escalate a non-zero installer exit code into a 400 response
carrying exit code, stdout, stderr and the network-isolation note. -/
def install_packages (cfg : Config) (rt : Runtime) (σ : Sys) (sandbox_id : String)
    (packages : List String) :
    Except Err (Int × String × String) × Sys × List RtCall :=
  if packages = [] then
    (.error (.http 400 (.msg "No packages provided")), σ, [])
  else
    let base := sandbox_dir cfg sandbox_id
    if !(pathExists σ base) then
      (.error (missing_base cfg σ sandbox_id), σ, [.get (container_name cfg sandbox_id)])
    else
      let name := container_name cfg sandbox_id
      if σ.containers.contains name then
        let cmd := pipCmd cfg packages
        let r := rt.exec_run name cmd
        if r.1 ≠ 0 then
          (.error (.http 400 (.installFailure r.1 r.2.1 r.2.2 pipNote)), σ,
            [.get name, .exec name cmd []])
        else (.ok r, σ, [.get name, .exec name cmd []])
      else (.error (.http 404 (.msg "Sandbox not found")), σ, [.get name])

/-- A well-formed path segment for rendering: nonempty, not a dot segment,
and free of separator and backslash characters — the segments ordinary
client-supplied relative paths consist of. -/
def goodSeg (s : String) : Bool :=
  s != "" && s != "." && s != ".." && s.data.all (fun c => !(c == '/') && !(c == '\\'))

/-- A file key is canonical relative to a workspace directory when, if it
lies under that directory, all its relative segments are well formed (true
of every file the service itself writes). -/
def goodRelKey (base : List String) (k : List String) : Bool :=
  !(segPre base k) || (k.drop base.length).all goodSeg

/-! ## Helper lemmas about path resolution -/

/-- A traversal-free segment list is simply appended by resolution. -/
theorem resolveSegs_no_dotdot (base : List String) (segs : List String)
    (h : ".." ∉ segs) : resolveSegs base segs = base ++ segs := by
  induction segs generalizing base with
  | nil => simp [resolveSegs]
  | cons s rest ih =>
    have hs : s ≠ ".." := fun hc => h (hc ▸ List.mem_cons_self s rest)
    have hr : ".." ∉ rest := fun hc => h (List.mem_cons_of_mem s hc)
    show resolveSegs (if s = ".." then base.dropLast else base ++ [s]) rest = _
    rw [if_neg hs, ih (base ++ [s]) hr, List.append_assoc]
    rfl

/-- `segPre` holds along appends. -/
theorem segPre_append (a xs : List String) : segPre a (a ++ xs) = true := by
  induction a with
  | nil => rfl
  | cons x t ih => simp [segPre, ih]

/-- `segPre` is reflexive. -/
theorem segPre_refl (a : List String) : segPre a a = true := by
  have := segPre_append a []
  simpa using this

/-- A list does not equal itself extended by a nonempty suffix. -/
theorem append_ne_self {a xs : List String} (h : xs ≠ []) : a ++ xs ≠ a := by
  intro hc
  have hl := congrArg List.length hc
  simp [List.length_append] at hl
  exact h hl

/-- A `segPre`-smaller list is an append prefix. -/
theorem eq_append_drop_of_segPre :
    ∀ {a b : List String}, segPre a b = true → b = a ++ b.drop a.length := by
  intro a
  induction a with
  | nil => intro b _; simp
  | cons x t ih =>
    intro b hb
    cases b with
    | nil => simp [segPre] at hb
    | cons y u =>
      simp only [segPre, Bool.and_eq_true, beq_iff_eq] at hb
      obtain ⟨hxy, hrest⟩ := hb
      subst hxy
      rw [List.length_cons, List.drop_succ_cons, List.cons_append]
      exact congrArg (List.cons x) (ih hrest)

/-! ## C1: path resolution against the workspace boundary -/

/-- C1, counterexample.  The claim states that an absolute-path override
fails resolution with `InvalidPath`; in the code `safe_path` strips the
leading separators instead, so `"/x"` resolves successfully to a path under
the workspace.  It also states that every relative path with no traversal
segments resolves strictly under `W`; the traversal-free path `"."` resolves
to `W` itself and is rejected with `InvalidPath`. -/
theorem c1_counterexample :
    safe_path ["srv", "sandboxes", "s1"] "/x" false =
      .ok ["srv", "sandboxes", "s1", "x"] ∧
    safe_path ["srv", "sandboxes", "s1"] "." false = .error invalidPath := by
  decide

/-- C1 (amended): a relative path with no `..` segments and at least one
non-trivial segment resolves via `safe_path` to the canonical path obtained
by appending its segments to `W`, which lies strictly under `W`; and every
successful resolution (root disallowed) yields a path strictly under `W`, so
escaping traversal fails with `InvalidPath`.  Absolute-path overrides are
neutralised by stripping leading separators rather than rejected. -/
theorem c1_safe_path_resolution (W : List String) (rel : String)
    (hnd : ".." ∉ relSegs rel) (hne : relSegs rel ≠ []) :
    (safe_path W rel false = .ok (W ++ relSegs rel) ∧ W ++ relSegs rel ≠ W) ∧
    ∀ rel2 r, safe_path W rel2 false = .ok r → segPre W r = true ∧ r ≠ W := by
  constructor
  · have hres := resolveSegs_no_dotdot W (relSegs rel) hnd
    have hneq : W ++ relSegs rel ≠ W := append_ne_self hne
    constructor
    · unfold safe_path
      rw [hres, if_neg hneq, if_pos (segPre_append W (relSegs rel))]
    · exact hneq
  · intro rel2 r h
    simp only [safe_path] at h
    split at h
    · simp at h
    · split at h
      · cases h
        exact ⟨by assumption, by assumption⟩
      · cases h

/-- C1 witness. -/
theorem c1_witness :
    (safe_path ["srv", "sandboxes", "s1"] "docs/a.txt" false =
        .ok ["srv", "sandboxes", "s1", "docs", "a.txt"] ∧
      ["srv", "sandboxes", "s1", "docs", "a.txt"] ≠ ["srv", "sandboxes", "s1"]) ∧
    ∀ rel2 r, safe_path ["srv", "sandboxes", "s1"] rel2 false = .ok r →
      segPre ["srv", "sandboxes", "s1"] r = true ∧ r ≠ ["srv", "sandboxes", "s1"] :=
  c1_safe_path_resolution ["srv", "sandboxes", "s1"] "docs/a.txt"
    (by decide) (by decide)

/-! ## C5: execute rejects unsupported suffixes before any work -/

/-- C5: for every system state, runtime oracle, sandbox id and argument
list, `execute` on a path that does not end in `.py` fails with the 400
`Only .py files can be executed` response, leaves the state untouched, and
performs no docker call (empty trace), regardless of the filesystem. -/
theorem c5_execute_suffix (cfg : Config) (rt : Runtime) (σ : Sys)
    (sandbox_id path : String) (args : List String)
    (h : strEndsWith path ".py" = false) :
    execute cfg rt σ sandbox_id path args =
      (.error (.http 400 (.msg "Only .py files can be executed")), σ, []) := by
  unfold execute
  rw [h]
  rfl

/-- C5 witness. -/
theorem c5_witness :
    execute ⟨["sb"], "cs", "/workspace", true⟩ ⟨none, none, fun _ _ => (0, "", "")⟩
        ⟨[["sb"], ["sb", "s1"]], [], ["cs-s1"]⟩ "s1" "evil.sh" ["x"] =
      (.error (.http 400 (.msg "Only .py files can be executed")),
        ⟨[["sb"], ["sb", "s1"]], [], ["cs-s1"]⟩, []) :=
  c5_execute_suffix _ _ _ _ _ _ (by decide)

/-! ## C4: the in-container execution target -/

/-- A string beginning with a slash parses with a nonempty root. -/
theorem pyRoot_ne_empty {s : String} (h : headIsSlash s = true) : pyRoot s ≠ "" := by
  unfold headIsSlash at h
  unfold pyRoot
  split
  · next heq => rw [heq] at h; cases h
  · next c1 rest1 heq =>
    rw [heq] at h
    have hc : c1 = '/' := by simpa using h
    rw [if_pos hc]
    split
    · decide
    · split
      · split
        · decide
        · split <;> decide
      · decide

/-- C4, counterexample.  The claim states that for every input path beginning
with `/` the join of the in-container working directory with the path equals
the input string itself; `pathlib` re-renders the path, collapsing repeated
separators, so for `"/a//b.py"` the joined command target is `"/a/b.py"`,
not the input string. -/
theorem c4_counterexample :
    pyJoin "/workspace" "/a//b.py" = "/a/b.py" ∧
    ("/a/b.py" : String) ≠ "/a//b.py" := by decide

/-- C4 (amended): the command `execute` runs in the container targets the
`pathlib` join of the configured in-container working directory with the
caller's original path string, not the host-validated canonical path; for
every input path beginning with `/` the join discards the working directory
entirely and equals the input re-rendered in canonical POSIX form (the input
itself when the input has no redundant separators or dot segments) — so the
in-container target can name a file outside the workspace mount. -/
theorem c4_execute_target (cfg : Config) (path : String) (args : List String)
    (h : headIsSlash path = true) :
    executeCmd cfg path args =
      "python" :: String.mk ((renderPosix (parsePosix path)).data.map deBackslash) ::
        args := by
  have hr : ((parsePosix path).root != "") = true := bne_iff_ne.mpr (pyRoot_ne_empty h)
  unfold executeCmd pyJoin joinPosix
  rw [hr]
  rfl

/-- C4 witness: with the working directory `/workspace`, executing the path
`"/etc/x.py"` targets `/etc/x.py` inside the container, not the workspace
file `/workspace/etc/x.py` whose existence the host checked. -/
theorem c4_witness :
    executeCmd ⟨["sb"], "cs", "/workspace", true⟩ "/etc/x.py" [] =
      "python" :: String.mk ((renderPosix (parsePosix "/etc/x.py")).data.map
        deBackslash) :: [] ∧
    executeCmd ⟨["sb"], "cs", "/workspace", true⟩ "/etc/x.py" [] =
      ["python", "/etc/x.py"] :=
  ⟨c4_execute_target ⟨["sb"], "cs", "/workspace", true⟩ "/etc/x.py" [] (by decide),
    by decide⟩

/-! ## C7: id collision on create -/

/-- `mkdir(parents=True, exist_ok=True)` is a no-op when the whole chain of
ancestors already exists as directories. -/
theorem mkdirp_noop (σ : Sys) (p : List String)
    (h1 : (initSegs p).all (fun q => σ.dirs.contains q) = true)
    (h2 : (initSegs p).any (fun q => isFile σ q) = false) :
    mkdirp σ p = .ok σ := by
  unfold mkdirp
  rw [h2]
  simp only [Bool.false_eq_true, if_false]
  have hf : (initSegs p).filter (fun q => !(σ.dirs.contains q)) = [] := by
    rw [List.filter_eq_nil_iff]
    intro q hq
    have hc := (List.all_eq_true.mp h1) q hq
    rw [hc]
    decide
  rw [hf]
  rfl

/-- C7, counterexample.  When the generated id collides with an existing
workspace directory, `mkdir(exist_ok=False)` raises `FileExistsError`, which
`create_sandbox` does not catch: no `HTTPException` is raised, so no
`Conflict`-kind (409) error reaches the transport boundary — the exception
escapes as an untyped internal error (`errStatus` is `none`). -/
theorem c7_counterexample :
    create_sandbox ⟨["sb"], "cs", "/workspace", true⟩
        ⟨none, none, fun _ _ => (0, "", "")⟩ ⟨[["sb"], ["sb", "s1"]], [], []⟩ "s1" =
      (.error (.os "FileExistsError"), ⟨[["sb"], ["sb", "s1"]], [], []⟩, []) ∧
    errStatus (.os "FileExistsError") = none := by decide

/-- C7 (amended): when the generated sandbox id collides with an existing
workspace directory, the exclusive directory creation fails with the
filesystem's `AlreadyExists` error (`FileExistsError`), but this exception
propagates uncaught and untyped — it is not surfaced as a distinct
`Conflict` error kind (it carries no transport status). -/
theorem c7_collision (cfg : Config) (rt : Runtime) (σ : Sys) (sandbox_id : String)
    (h1 : (initSegs cfg.sandbox_root).all (fun q => σ.dirs.contains q) = true)
    (h2 : (initSegs cfg.sandbox_root).any (fun q => isFile σ q) = false)
    (h3 : pathExists σ (sandbox_dir cfg sandbox_id) = true) :
    create_sandbox cfg rt σ sandbox_id = (.error (.os "FileExistsError"), σ, []) ∧
    errStatus (.os "FileExistsError") = none := by
  refine ⟨?_, rfl⟩
  have hm := mkdirp_noop σ cfg.sandbox_root h1 h2
  simp only [create_sandbox, hm, mkdirExclusive, h3, if_true]

/-- C7 witness. -/
theorem c7_witness :
    create_sandbox ⟨["sb"], "cs", "/workspace", true⟩
        ⟨none, none, fun _ _ => (1, "", "")⟩ ⟨[["sb"], ["sb", "z2"]], [], []⟩ "z2" =
      (.error (.os "FileExistsError"), ⟨[["sb"], ["sb", "z2"]], [], []⟩, []) ∧
    errStatus (.os "FileExistsError") = none :=
  c7_collision ⟨["sb"], "cs", "/workspace", true⟩ ⟨none, none, fun _ _ => (1, "", "")⟩
    ⟨[["sb"], ["sb", "z2"]], [], []⟩ "z2" (by decide) (by decide) (by decide)

/-! ## C8: the workspace root as an operation target -/

/-- C8, counterexample.  The claim states that `execute` with a path naming
the workspace root fails `InvalidPath`; in the code the `.py`-suffix check
runs before path resolution, so the root-naming path `"."` is rejected with
the `InvalidRequest`-kind message `Only .py files can be executed`, which is
a different detail than `Invalid path`. -/
theorem c8_counterexample :
    execute ⟨["sb"], "cs", "/workspace", true⟩ ⟨none, none, fun _ _ => (0, "", "")⟩
        ⟨[["sb"], ["sb", "s1"]], [], ["cs-s1"]⟩ "s1" "." [] =
      (.error (.http 400 (.msg "Only .py files can be executed")),
        ⟨[["sb"], ["sb", "s1"]], [], ["cs-s1"]⟩, []) ∧
    Detail.msg "Only .py files can be executed" ≠ Detail.msg "Invalid path" := by
  decide

/-- C8 (amended): a path resolving to the workspace root itself is rejected
with `InvalidPath` unless the caller allows the root, and only directory
listing allows it: `upsert_file`, `delete_file` and `read_file` with a
root-naming path fail `InvalidPath`; `list_files` accepts it; `execute`
rejects every root-naming path as well, but through the earlier suffix check
(`InvalidRequest`) when the path lacks `.py`, and with `InvalidPath` when a
root-naming path does carry the `.py` suffix. -/
theorem c8_root_target (cfg : Config) (rt : Runtime) (σ : Sys)
    (sandbox_id path content : String) (args : List String)
    (hres : resolveSegs (sandbox_dir cfg sandbox_id) (relSegs path) =
      sandbox_dir cfg sandbox_id)
    (hdir : isDir σ (sandbox_dir cfg sandbox_id) = true) :
    upsert_file cfg rt σ sandbox_id path content = (.error invalidPath, σ, []) ∧
    delete_file cfg rt σ sandbox_id path = (.error invalidPath, σ, []) ∧
    read_file cfg rt σ sandbox_id path = (.error invalidPath, σ, []) ∧
    (∃ L, (list_files cfg rt σ sandbox_id path).1 = .ok L) ∧
    (strEndsWith path ".py" = false →
      execute cfg rt σ sandbox_id path args =
        (.error (.http 400 (.msg "Only .py files can be executed")), σ, [])) ∧
    (strEndsWith path ".py" = true →
      execute cfg rt σ sandbox_id path args = (.error invalidPath, σ, [])) := by
  have hex : pathExists σ (sandbox_dir cfg sandbox_id) = true := by
    simp [pathExists, hdir]
  have hsp : safe_path (sandbox_dir cfg sandbox_id) path false = .error invalidPath := by
    simp [safe_path, hres]
  have hspT : safe_path (sandbox_dir cfg sandbox_id) path true =
      .ok (sandbox_dir cfg sandbox_id) := by
    simp [safe_path, hres]
  refine ⟨?_, ?_, ?_, ?_, ?_, ?_⟩
  · simp [upsert_file, hex, hsp]
  · simp [delete_file, hex, hsp]
  · simp [read_file, hex, hsp]
  · simp [list_files, hex, hspT, hdir]
  · intro h
    unfold execute
    rw [h]
    rfl
  · intro h
    simp [execute, h, hex, hsp]

/-- C8 witness. -/
theorem c8_witness :
    upsert_file ⟨["sb"], "cs", "/workspace", true⟩ ⟨none, none, fun _ _ => (0, "", "")⟩
        ⟨[["sb"], ["sb", "s1"]], [], ["cs-s1"]⟩ "s1" "." "x" =
      (.error invalidPath, ⟨[["sb"], ["sb", "s1"]], [], ["cs-s1"]⟩, []) ∧
    delete_file ⟨["sb"], "cs", "/workspace", true⟩ ⟨none, none, fun _ _ => (0, "", "")⟩
        ⟨[["sb"], ["sb", "s1"]], [], ["cs-s1"]⟩ "s1" "." =
      (.error invalidPath, ⟨[["sb"], ["sb", "s1"]], [], ["cs-s1"]⟩, []) ∧
    read_file ⟨["sb"], "cs", "/workspace", true⟩ ⟨none, none, fun _ _ => (0, "", "")⟩
        ⟨[["sb"], ["sb", "s1"]], [], ["cs-s1"]⟩ "s1" "." =
      (.error invalidPath, ⟨[["sb"], ["sb", "s1"]], [], ["cs-s1"]⟩, []) ∧
    (∃ L, (list_files ⟨["sb"], "cs", "/workspace", true⟩
        ⟨none, none, fun _ _ => (0, "", "")⟩
        ⟨[["sb"], ["sb", "s1"]], [], ["cs-s1"]⟩ "s1" ".").1 = .ok L) ∧
    (strEndsWith "." ".py" = false →
      execute ⟨["sb"], "cs", "/workspace", true⟩ ⟨none, none, fun _ _ => (0, "", "")⟩
          ⟨[["sb"], ["sb", "s1"]], [], ["cs-s1"]⟩ "s1" "." [] =
        (.error (.http 400 (.msg "Only .py files can be executed")),
          ⟨[["sb"], ["sb", "s1"]], [], ["cs-s1"]⟩, [])) ∧
    (strEndsWith "." ".py" = true →
      execute ⟨["sb"], "cs", "/workspace", true⟩ ⟨none, none, fun _ _ => (0, "", "")⟩
          ⟨[["sb"], ["sb", "s1"]], [], ["cs-s1"]⟩ "s1" "." [] =
        (.error invalidPath, ⟨[["sb"], ["sb", "s1"]], [], ["cs-s1"]⟩, [])) :=
  c8_root_target ⟨["sb"], "cs", "/workspace", true⟩ ⟨none, none, fun _ _ => (0, "", "")⟩
    ⟨[["sb"], ["sb", "s1"]], [], ["cs-s1"]⟩ "s1" "." "x" [] (by decide) (by decide)

/-! ## C2: compensating cleanup in create_sandbox -/

/-- `initSegs` over a one-element extension. -/
theorem initSegs_append_one (xs : List String) (x : String) :
    initSegs (xs ++ [x]) = initSegs xs ++ [xs ++ [x]] := by
  unfold initSegs
  rw [List.length_append]
  simp only [List.length_singleton]
  rw [List.range_succ, List.map_append]
  congr 1
  · apply List.map_congr_left
    intro i hi
    have hlt : i < xs.length := List.mem_range.mp hi
    rw [List.take_append_of_le_length (by omega)]
  · simp

/-- Directories all present already means nothing is filtered in. -/
theorem filter_not_contains_nil (σ : Sys) (l : List (List String))
    (h : l.all (fun q => σ.dirs.contains q) = true) :
    l.filter (fun q => !(σ.dirs.contains q)) = [] := by
  rw [List.filter_eq_nil_iff]
  intro q hq
  have hc := (List.all_eq_true.mp h) q hq
  rw [hc]
  decide

/-- C2: whenever starting the execution unit fails, `create_sandbox` removes
the directory it created (restoring the initial filesystem state exactly,
given that the directory was fresh) and re-raises the original runtime
error, so no partially-created sandbox is left on disk and no id is
returned. -/
theorem c2_create_cleanup (cfg : Config) (rt : Runtime) (σ : Sys)
    (sandbox_id msg : String)
    (h1 : (initSegs cfg.sandbox_root).all (fun q => σ.dirs.contains q) = true)
    (h2 : (initSegs (sandbox_dir cfg sandbox_id)).any (fun q => isFile σ q) = false)
    (h3 : pathExists σ (sandbox_dir cfg sandbox_id) = false)
    (h4 : σ.dirs.all (fun d => !(segPre (sandbox_dir cfg sandbox_id) d)) = true)
    (h5 : σ.files.all (fun f => !(segPre (sandbox_dir cfg sandbox_id) f.1)) = true)
    (h6 : rt.run_fails = some msg) :
    create_sandbox cfg rt σ sandbox_id =
      (.error (.runtime msg), σ, [.run (container_name cfg sandbox_id)]) := by
  have hsd : sandbox_dir cfg sandbox_id = cfg.sandbox_root ++ [sandbox_id] := rfl
  have h2' := h2
  rw [hsd, initSegs_append_one, List.any_append] at h2'
  have h2root : (initSegs cfg.sandbox_root).any (fun q => isFile σ q) = false :=
    (Bool.or_eq_false_iff.mp h2').1
  have hm := mkdirp_noop σ cfg.sandbox_root h1 h2root
  have hdF : isDir σ (sandbox_dir cfg sandbox_id) = false := by
    unfold pathExists at h3
    exact (Bool.or_eq_false_iff.mp h3).1
  have hfil : (initSegs (sandbox_dir cfg sandbox_id)).filter
      (fun q => !(σ.dirs.contains q)) = [sandbox_dir cfg sandbox_id] := by
    rw [hsd, initSegs_append_one, List.filter_append,
      filter_not_contains_nil σ _ h1]
    have hc0 : σ.dirs.contains (cfg.sandbox_root ++ [sandbox_id]) = false := by
      rw [← hsd]
      exact hdF
    rw [List.filter_singleton, hc0]
    simp
  have hex : mkdirExclusive σ (sandbox_dir cfg sandbox_id) =
      .ok { σ with dirs := (sandbox_dir cfg sandbox_id) :: σ.dirs } := by
    unfold mkdirExclusive
    rw [h3, h2]
    simp only [Bool.false_eq_true, if_false]
    rw [hfil]
    rfl
  have hrm : rmtree { σ with dirs := (sandbox_dir cfg sandbox_id) :: σ.dirs }
      (sandbox_dir cfg sandbox_id) = σ := by
    unfold rmtree
    have hd2 : ((sandbox_dir cfg sandbox_id) :: σ.dirs).filter
        (fun d => !(segPre (sandbox_dir cfg sandbox_id) d)) = σ.dirs := by
      rw [List.filter_cons, segPre_refl]
      simp only [Bool.not_true, Bool.false_eq_true, if_false]
      exact List.filter_eq_self.mpr (fun a ha => (List.all_eq_true.mp h4) a ha)
    have hf2 : σ.files.filter
        (fun f => !(segPre (sandbox_dir cfg sandbox_id) f.1)) = σ.files :=
      List.filter_eq_self.mpr (fun a ha => (List.all_eq_true.mp h5) a ha)
    rw [hd2, hf2]
  simp only [create_sandbox, hm, hex, h6, hrm]

/-- C2 witness. -/
theorem c2_witness :
    create_sandbox ⟨["sb"], "cs", "/workspace", true⟩
        ⟨some "docker daemon unreachable", none, fun _ _ => (0, "", "")⟩
        ⟨[["sb"]], [], []⟩ "s9" =
      (.error (.runtime "docker daemon unreachable"), ⟨[["sb"]], [], []⟩,
        [.run "cs-s9"]) :=
  c2_create_cleanup ⟨["sb"], "cs", "/workspace", true⟩
    ⟨some "docker daemon unreachable", none, fun _ _ => (0, "", "")⟩
    ⟨[["sb"]], [], []⟩ "s9" "docker daemon unreachable"
    (by decide) (by decide) (by decide) (by decide) (by decide) rfl

/-! ## C3: delete_sandbox lookup and unconditional directory cleanup -/

/-- Filtering away an element makes `contains` false. -/
theorem contains_filter_ne (l : List String) (a : String) :
    (l.filter (fun c => c != a)).contains a = false := by
  induction l with
  | nil => rfl
  | cons x xs ih =>
    rw [List.filter_cons]
    by_cases hx : x = a
    · subst hx
      simp only [bne_self_eq_false, Bool.false_eq_true, if_false]
      exact ih
    · rw [if_pos (bne_iff_ne.mpr hx)]
      rw [List.contains_cons]
      simp only [ih, Bool.or_false]
      exact beq_eq_false_iff_ne.mpr (fun hc => hx hc.symm)

/-- C3: `delete_sandbox` first looks the execution unit up and fails 404
`Sandbox not found` when it is absent (leaving the state untouched); when
the unit exists, the workspace directory is removed on both exit paths of
the removal step (no surviving directory lies under the sandbox directory,
whether or not `remove` raises); and after a successful delete, deleting the
same id again fails 404 `Sandbox not found`. -/
theorem c3_delete_sandbox (cfg : Config) (rt : Runtime) (σ : Sys) (sandbox_id : String) :
    (σ.containers.contains (container_name cfg sandbox_id) = false →
      delete_sandbox cfg rt σ sandbox_id =
        (.error (.http 404 (.msg "Sandbox not found")), σ,
          [.get (container_name cfg sandbox_id)])) ∧
    (σ.containers.contains (container_name cfg sandbox_id) = true →
      ((delete_sandbox cfg rt σ sandbox_id).2.1.dirs.all
        (fun d => !(segPre (sandbox_dir cfg sandbox_id) d))) = true) ∧
    (σ.containers.contains (container_name cfg sandbox_id) = true →
      rt.remove_fails = none →
      delete_sandbox cfg rt (delete_sandbox cfg rt σ sandbox_id).2.1 sandbox_id =
        (.error (.http 404 (.msg "Sandbox not found")),
          (delete_sandbox cfg rt σ sandbox_id).2.1,
          [.get (container_name cfg sandbox_id)])) := by
  have key : ∀ τ : Sys, ((rmtree τ (sandbox_dir cfg sandbox_id)).dirs.all
      (fun d => !(segPre (sandbox_dir cfg sandbox_id) d))) = true := by
    intro τ
    unfold rmtree
    rw [List.all_eq_true]
    intro d hd
    exact (List.mem_filter.mp hd).2
  refine ⟨?_, ?_, ?_⟩
  · intro h
    simp only [delete_sandbox]
    rw [h]
    simp
  · intro h
    cases hrf : rt.remove_fails with
    | none => simp only [delete_sandbox, h, if_true, hrf]; exact key _
    | some m => simp only [delete_sandbox, h, if_true, hrf]; exact key _
  · intro h hrf
    set σ2 := (delete_sandbox cfg rt σ sandbox_id).2.1 with hσ2
    have hcon : σ2.containers.contains (container_name cfg sandbox_id) = false := by
      rw [hσ2]
      simp only [delete_sandbox, h, if_true, hrf, rmtree]
      exact contains_filter_ne _ _
    simp only [delete_sandbox]
    rw [hcon]
    simp

/-- C3 witness. -/
theorem c3_witness :
    (([] : List String).contains "cs-gone" = false →
      delete_sandbox ⟨["sb"], "cs", "/workspace", true⟩
          ⟨none, none, fun _ _ => (0, "", "")⟩ ⟨[["sb"], ["sb", "g1"]], [], []⟩ "gone" =
        (.error (.http 404 (.msg "Sandbox not found")),
          ⟨[["sb"], ["sb", "g1"]], [], []⟩, [.get "cs-gone"])) ∧
    (([] : List String).contains "cs-gone" = true →
      ((delete_sandbox ⟨["sb"], "cs", "/workspace", true⟩
          ⟨none, none, fun _ _ => (0, "", "")⟩ ⟨[["sb"], ["sb", "g1"]], [], []⟩
          "gone").2.1.dirs.all
        (fun d => !(segPre (sandbox_dir ⟨["sb"], "cs", "/workspace", true⟩ "gone") d))) =
        true) ∧
    (([] : List String).contains "cs-gone" = true →
      (⟨none, none, fun _ _ => (0, "", "")⟩ : Runtime).remove_fails = none →
      delete_sandbox ⟨["sb"], "cs", "/workspace", true⟩
          ⟨none, none, fun _ _ => (0, "", "")⟩
          ((delete_sandbox ⟨["sb"], "cs", "/workspace", true⟩
            ⟨none, none, fun _ _ => (0, "", "")⟩ ⟨[["sb"], ["sb", "g1"]], [], []⟩
            "gone").2.1) "gone" =
        (.error (.http 404 (.msg "Sandbox not found")),
          (delete_sandbox ⟨["sb"], "cs", "/workspace", true⟩
            ⟨none, none, fun _ _ => (0, "", "")⟩ ⟨[["sb"], ["sb", "g1"]], [], []⟩
            "gone").2.1, [.get "cs-gone"])) :=
  c3_delete_sandbox ⟨["sb"], "cs", "/workspace", true⟩
    ⟨none, none, fun _ _ => (0, "", "")⟩ ⟨[["sb"], ["sb", "g1"]], [], []⟩ "gone"

/-! ## C6: install_packages failure conditions -/

/-- C6: on an existing sandbox, `install_packages` rejects an empty package
list with 400 `No packages provided` before any side effect (state unchanged,
no docker call); with a nonempty list it runs the installer, escalates a
non-zero installer exit code into a 400 response carrying the exit code, the
full stdout and stderr and the network-isolation note, and on a zero exit
code returns the exit code, stdout and stderr normally. -/
theorem c6_install_packages (cfg : Config) (rt : Runtime) (σ : Sys)
    (sandbox_id : String) (packages : List String) :
    (install_packages cfg rt σ sandbox_id [] =
      (.error (.http 400 (.msg "No packages provided")), σ, [])) ∧
    (packages ≠ [] → pathExists σ (sandbox_dir cfg sandbox_id) = true →
      σ.containers.contains (container_name cfg sandbox_id) = true →
      (((rt.exec_run (container_name cfg sandbox_id) (pipCmd cfg packages)).1 ≠ 0 →
        install_packages cfg rt σ sandbox_id packages =
          (.error (.http 400 (.installFailure
              (rt.exec_run (container_name cfg sandbox_id) (pipCmd cfg packages)).1
              (rt.exec_run (container_name cfg sandbox_id) (pipCmd cfg packages)).2.1
              (rt.exec_run (container_name cfg sandbox_id) (pipCmd cfg packages)).2.2
              pipNote)), σ,
            [.get (container_name cfg sandbox_id),
              .exec (container_name cfg sandbox_id) (pipCmd cfg packages) []])) ∧
      ((rt.exec_run (container_name cfg sandbox_id) (pipCmd cfg packages)).1 = 0 →
        install_packages cfg rt σ sandbox_id packages =
          (.ok (rt.exec_run (container_name cfg sandbox_id) (pipCmd cfg packages)), σ,
            [.get (container_name cfg sandbox_id),
              .exec (container_name cfg sandbox_id) (pipCmd cfg packages) []])))) := by
  constructor
  · simp [install_packages]
  · intro hne hex hcon
    constructor
    · intro hnz
      simp [install_packages, hne, hex, hcon, hnz]
      exact List.mem_of_elem_eq_true hcon
    · intro hz
      simp [install_packages, hne, hex, hcon, hz]
      exact List.mem_of_elem_eq_true hcon

/-- C6 witness: a failing installer run (exit code 2) and the empty-list
rejection, at concrete inputs. -/
theorem c6_witness :
    (install_packages ⟨["sb"], "cs", "/workspace", true⟩
        ⟨none, none, fun _ _ => (2, "out", "err")⟩
        ⟨[["sb"], ["sb", "s1"]], [], ["cs-s1"]⟩ "s1" [] =
      (.error (.http 400 (.msg "No packages provided")),
        ⟨[["sb"], ["sb", "s1"]], [], ["cs-s1"]⟩, [])) ∧
    install_packages ⟨["sb"], "cs", "/workspace", true⟩
        ⟨none, none, fun _ _ => (2, "out", "err")⟩
        ⟨[["sb"], ["sb", "s1"]], [], ["cs-s1"]⟩ "s1" ["requests"] =
      (.error (.http 400 (.installFailure 2 "out" "err" pipNote)),
        ⟨[["sb"], ["sb", "s1"]], [], ["cs-s1"]⟩,
        [.get "cs-s1",
          .exec "cs-s1" (pipCmd ⟨["sb"], "cs", "/workspace", true⟩ ["requests"]) []]) :=
  ⟨(c6_install_packages ⟨["sb"], "cs", "/workspace", true⟩
      ⟨none, none, fun _ _ => (2, "out", "err")⟩
      ⟨[["sb"], ["sb", "s1"]], [], ["cs-s1"]⟩ "s1" ["requests"]).1,
    ((c6_install_packages ⟨["sb"], "cs", "/workspace", true⟩
      ⟨none, none, fun _ _ => (2, "out", "err")⟩
      ⟨[["sb"], ["sb", "s1"]], [], ["cs-s1"]⟩ "s1" ["requests"]).2
      (by decide) (by decide) (by decide)).1 (by decide)⟩

/-! ## C10: upsert followed by read returns the written content -/

/-- Members of `initSegs p` are no longer than `p`. -/
theorem length_le_of_mem_initSegs {q p : List String} (h : q ∈ initSegs p) :
    q.length ≤ p.length := by
  unfold initSegs at h
  obtain ⟨i, hi, hq⟩ := List.mem_map.mp h
  rw [← hq]
  simp [List.length_take]

/-- `contains` skips a left part that does not hold the element. -/
theorem contains_append_left_false {l₁ l₂ : List (List String)} {a : List String}
    (h : a ∉ l₁) : (l₁ ++ l₂).contains a = l₂.contains a := by
  induction l₁ with
  | nil => rfl
  | cons x xs ih =>
    have hx : ¬ a = x := fun hc => h (hc ▸ List.mem_cons_self x xs)
    rw [List.cons_append, List.contains_cons,
      ih (fun hc => h (List.mem_cons_of_mem x hc))]
    simp [beq_eq_false_iff_ne.mpr hx]

/-- `contains` propagates from the right part of an append. -/
theorem contains_append_of_right {l₁ l₂ : List (List String)} {a : List String}
    (h : l₂.contains a = true) : (l₁ ++ l₂).contains a = true := by
  induction l₁ with
  | nil => exact h
  | cons x xs ih =>
    rw [List.cons_append, List.contains_cons, ih]
    simp

/-- `find?` skips a left part on which the predicate is everywhere false. -/
theorem find?_append_of_none {α : Type} {p : α → Bool} {l₁ l₂ : List α}
    (h : ∀ x ∈ l₁, p x = false) : (l₁ ++ l₂).find? p = l₂.find? p := by
  induction l₁ with
  | nil => rfl
  | cons x xs ih =>
    rw [List.cons_append, List.find?_cons_of_neg]
    · exact ih (fun y hy => h y (List.mem_cons_of_mem x hy))
    · simp [h x (List.mem_cons_self x xs)]

/-- Creating the missing parents of a path does not create the path itself. -/
theorem isDir_mkdirp_self {σ : Sys} {K : List String} (hKne : K ≠ [])
    (htd : isDir σ K = false) :
    isDir { σ with dirs := (initSegs K.dropLast).filter (fun q => !(σ.dirs.contains q)) ++ σ.dirs } K = false := by
  unfold isDir at htd ⊢
  have hnm : K ∉ (initSegs K.dropLast).filter (fun q => !(σ.dirs.contains q)) := by
    intro hc
    have hm := List.mem_of_mem_filter hc
    have hle := length_le_of_mem_initSegs hm
    have hpos : 0 < K.length := List.length_pos.mpr hKne
    rw [List.length_dropLast] at hle
    omega
  rw [contains_append_left_false hnm]
  exact htd

/-- `univNewlines` leaves a list alone at a head that is not a carriage
return. -/
theorem univNewlines_cons_ne {c : Char} {rest : List Char} (hc : c ≠ '\r') :
    univNewlines (c :: rest) = c :: univNewlines rest := by
  cases rest with
  | nil =>
    show (if c = '\r' then ['\n'] else [c]) = c :: univNewlines []
    rw [if_neg hc]
    rfl
  | cons c2 r =>
    show (if c = '\r' then
        if c2 = '\n' then '\n' :: univNewlines r else '\n' :: univNewlines (c2 :: r)
      else c :: univNewlines (c2 :: r)) = c :: univNewlines (c2 :: r)
    rw [if_neg hc]

/-- `univNewlines` is the identity on carriage-return-free text. -/
theorem univNewlines_id {cs : List Char} (h : ∀ c ∈ cs, c ≠ '\r') :
    univNewlines cs = cs := by
  induction cs with
  | nil => rfl
  | cons c rest ih =>
    rw [univNewlines_cons_ne (h c (List.mem_cons_self c rest)),
      ih (fun x hx => h x (List.mem_cons_of_mem c hx))]

/-- C10, counterexample.  The claim states that reading back an upserted
file returns exactly the written content for every text content; but
`Path.read_text` reads in text mode with universal-newline translation, so
writing `"a\r\nb"` and reading it back returns `"a\nb"`, not the written
string. -/
theorem c10_counterexample :
    (read_file ⟨["sb"], "cs", "/workspace", true⟩ ⟨none, none, fun _ _ => (0, "", "")⟩
        (upsert_file ⟨["sb"], "cs", "/workspace", true⟩
          ⟨none, none, fun _ _ => (0, "", "")⟩
          ⟨[["sb"], ["sb", "s1"]], [], ["cs-s1"]⟩ "s1" "n.txt" "a\r\nb").2.1
        "s1" "n.txt").1 = .ok "a\nb" ∧
    ("a\nb" : String) ≠ "a\r\nb" := by decide

/-- C10 (amended): on an existing sandbox, writing a traversal-free relative
path and then reading the same path back returns the written text content
with the universal-newline translation of `read_text` applied (`\r\n` and
`\r` become `\n`) — in particular exactly the written content whenever it
contains no carriage returns (provided the target is not an existing
directory and no ancestor of the target exists as a regular file, the
conditions under which the Python write itself succeeds). -/
theorem c10_upsert_then_read (cfg : Config) (rt : Runtime) (σ : Sys)
    (sandbox_id path content : String)
    (hne : relSegs path ≠ []) (hnd : ".." ∉ relSegs path)
    (hdir : isDir σ (sandbox_dir cfg sandbox_id) = true)
    (htd : isDir σ (sandbox_dir cfg sandbox_id ++ relSegs path) = false)
    (hanc : (initSegs (sandbox_dir cfg sandbox_id ++ relSegs path).dropLast).any
      (fun q => isFile σ q) = false) :
    (upsert_file cfg rt σ sandbox_id path content).1 = .ok () ∧
    read_file cfg rt (upsert_file cfg rt σ sandbox_id path content).2.1 sandbox_id
        path =
      (.ok (String.mk (univNewlines content.data)),
        (upsert_file cfg rt σ sandbox_id path content).2.1, []) ∧
    (content.data.all (fun c => c != '\r') = true →
      String.mk (univNewlines content.data) = content) := by
  have hex : pathExists σ (sandbox_dir cfg sandbox_id) = true := by
    simp [pathExists, hdir]
  have hsp : safe_path (sandbox_dir cfg sandbox_id) path false =
      .ok (sandbox_dir cfg sandbox_id ++ relSegs path) := by
    unfold safe_path
    rw [resolveSegs_no_dotdot _ _ hnd]
    rw [if_neg (append_ne_self hne), if_pos (segPre_append _ _)]
  have hmk : mkdirp σ (sandbox_dir cfg sandbox_id ++ relSegs path).dropLast = .ok
      { σ with dirs := (initSegs (sandbox_dir cfg sandbox_id ++ relSegs path).dropLast).filter (fun q => !(σ.dirs.contains q)) ++ σ.dirs } := by
    unfold mkdirp
    rw [hanc]
    simp
  have hKne : sandbox_dir cfg sandbox_id ++ relSegs path ≠ [] := by
    intro h0
    exact hne (List.append_eq_nil.mp h0).2
  have hup1 : upsert_file cfg rt σ sandbox_id path content = (.ok (),
      { σ with
        dirs := (initSegs (sandbox_dir cfg sandbox_id ++ relSegs path).dropLast).filter (fun q => !(σ.dirs.contains q)) ++ σ.dirs,
        files := σ.files.filter (fun f => f.1 != (sandbox_dir cfg sandbox_id ++ relSegs path)) ++ [(sandbox_dir cfg sandbox_id ++ relSegs path, content)] }, []) := by
    simp only [upsert_file, hex, hsp, hmk, Bool.not_true, Bool.false_eq_true, if_false]
    rw [isDir_mkdirp_self hKne htd]
    simp
  have hAfalse : ∀ f ∈ σ.files.filter
      (fun f => f.1 != (sandbox_dir cfg sandbox_id ++ relSegs path)),
      (f.1 == (sandbox_dir cfg sandbox_id ++ relSegs path)) = false := by
    intro f hf
    have hbne := (List.mem_filter.mp hf).2
    exact beq_eq_false_iff_ne.mpr (bne_iff_ne.mp hbne)
  have hfind : findFile (upsert_file cfg rt σ sandbox_id path content).2.1
      (sandbox_dir cfg sandbox_id ++ relSegs path) =
      some (sandbox_dir cfg sandbox_id ++ relSegs path, content) := by
    rw [hup1]
    unfold findFile
    simp only []
    rw [find?_append_of_none hAfalse]
    simp
  have hisf : isFile (upsert_file cfg rt σ sandbox_id path content).2.1
      (sandbox_dir cfg sandbox_id ++ relSegs path) = true := by
    unfold isFile
    rw [hfind]
    rfl
  have hpeK : pathExists (upsert_file cfg rt σ sandbox_id path content).2.1
      (sandbox_dir cfg sandbox_id ++ relSegs path) = true := by
    unfold pathExists
    rw [hisf]
    simp
  have hdir2 : isDir (upsert_file cfg rt σ sandbox_id path content).2.1
      (sandbox_dir cfg sandbox_id) = true := by
    rw [hup1]
    unfold isDir
    simp only []
    exact contains_append_of_right hdir
  have hpeB : pathExists (upsert_file cfg rt σ sandbox_id path content).2.1
      (sandbox_dir cfg sandbox_id) = true := by
    unfold pathExists
    rw [hdir2]
    rfl
  refine ⟨by rw [hup1], ?_, ?_⟩
  · simp only [read_file, hpeB, hsp, hpeK, hisf, hfind, Bool.not_true,
      Bool.false_eq_true, if_false]
  · intro hcr
    rw [univNewlines_id (fun c hc => bne_iff_ne.mp ((List.all_eq_true.mp hcr) c hc))]

/-- C10 witness. -/
theorem c10_witness :
    (upsert_file ⟨["sb"], "cs", "/workspace", true⟩ ⟨none, none, fun _ _ => (0, "", "")⟩
        ⟨[["sb"], ["sb", "s1"]], [], ["cs-s1"]⟩ "s1" "a/b.txt" "hello").1 = .ok () ∧
    read_file ⟨["sb"], "cs", "/workspace", true⟩ ⟨none, none, fun _ _ => (0, "", "")⟩
        (upsert_file ⟨["sb"], "cs", "/workspace", true⟩
          ⟨none, none, fun _ _ => (0, "", "")⟩
          ⟨[["sb"], ["sb", "s1"]], [], ["cs-s1"]⟩ "s1" "a/b.txt" "hello").2.1
        "s1" "a/b.txt" =
      (.ok (String.mk (univNewlines ("hello" : String).data)),
        (upsert_file ⟨["sb"], "cs", "/workspace", true⟩
          ⟨none, none, fun _ _ => (0, "", "")⟩
          ⟨[["sb"], ["sb", "s1"]], [], ["cs-s1"]⟩ "s1" "a/b.txt" "hello").2.1, []) ∧
    (("hello" : String).data.all (fun c => c != '\r') = true →
      String.mk (univNewlines ("hello" : String).data) = "hello") :=
  c10_upsert_then_read ⟨["sb"], "cs", "/workspace", true⟩
    ⟨none, none, fun _ _ => (0, "", "")⟩ ⟨[["sb"], ["sb", "s1"]], [], ["cs-s1"]⟩
    "s1" "a/b.txt" "hello" (by decide) (by decide) (by decide) (by decide) (by decide)

/-! ## C9: listing after upsert -/

/-- `splitOnChar` never returns the empty list. -/
theorem splitOnChar_ne_nil (sep : Char) (cs : List Char) : splitOnChar sep cs ≠ [] := by
  cases cs with
  | nil => simp [splitOnChar]
  | cons c rest =>
    show (match splitOnChar sep rest with
      | [] => [[c]]
      | g :: gs => if c = sep then [] :: g :: gs else (c :: g) :: gs) ≠ []
    cases h : splitOnChar sep rest with
    | nil => simp
    | cons g gs => by_cases hc : c = sep <;> simp [hc]

/-- Splitting after a leading separator prepends an empty group. -/
theorem splitOnChar_cons_sep (sep : Char) (cs : List Char) :
    splitOnChar sep (sep :: cs) = [] :: splitOnChar sep cs := by
  show (match splitOnChar sep cs with
    | [] => [[sep]]
    | g :: gs => if sep = sep then [] :: g :: gs else (sep :: g) :: gs) =
    [] :: splitOnChar sep cs
  cases h : splitOnChar sep cs with
  | nil => exact absurd h (splitOnChar_ne_nil sep cs)
  | cons g gs => simp

/-- Splitting after a separator-free block prepends the block to the first
group. -/
theorem splitOnChar_append_sepfree (sep : Char) (g cs : List Char)
    (h : ∀ c ∈ g, c ≠ sep) :
    splitOnChar sep (g ++ cs) = (splitOnChar sep cs).modifyHead (fun x => g ++ x) := by
  induction g with
  | nil =>
    rw [List.nil_append]
    cases hs : splitOnChar sep cs with
    | nil => exact absurd hs (splitOnChar_ne_nil sep cs)
    | cons a as => simp [List.modifyHead]
  | cons c t ih =>
    have hc : c ≠ sep := h c (List.mem_cons_self c t)
    have ht : ∀ x ∈ t, x ≠ sep := fun x hx => h x (List.mem_cons_of_mem c hx)
    show (match splitOnChar sep (t ++ cs) with
      | [] => [[c]]
      | g :: gs => if c = sep then [] :: g :: gs else (c :: g) :: gs) =
      (splitOnChar sep cs).modifyHead (fun x => (c :: t) ++ x)
    rw [ih ht]
    cases hs : splitOnChar sep cs with
    | nil => exact absurd hs (splitOnChar_ne_nil sep cs)
    | cons a as => simp [List.modifyHead, if_neg hc]

/-- Splitting inverts joining on nonempty lists of separator-free groups. -/
theorem splitOnChar_joinChar (sep : Char) :
    ∀ gs : List (List Char), gs ≠ [] → (∀ g ∈ gs, ∀ c ∈ g, c ≠ sep) →
      splitOnChar sep (joinChar sep gs) = gs
  | [], h, _ => absurd rfl h
  | [g], _, hfree => by
    have h1 := splitOnChar_append_sepfree sep g [] (hfree g (by simp))
    simpa [joinChar, splitOnChar, List.modifyHead] using h1
  | g :: g2 :: gs, _, hfree => by
    show splitOnChar sep (g ++ sep :: joinChar sep (g2 :: gs)) = g :: g2 :: gs
    rw [splitOnChar_append_sepfree sep g _ (hfree g (List.mem_cons_self _ _)),
      splitOnChar_cons_sep,
      splitOnChar_joinChar sep (g2 :: gs) (by simp)
        (fun x hx => hfree x (List.mem_cons_of_mem g hx))]
    simp [List.modifyHead]

/-- The characters of `joinSlash` are the characters of the segments joined
with the separator. -/
theorem joinSlash_data :
    ∀ L : List String, (joinSlash L).data = joinChar '/' (L.map String.data)
  | [] => rfl
  | [s] => rfl
  | s :: t :: rest => by
    show (s ++ "/" ++ joinSlash (t :: rest)).data = _
    rw [String.data_append, String.data_append, joinSlash_data (t :: rest)]
    show s.data ++ "/".data ++ joinChar '/' ((t :: rest).map String.data) =
      s.data ++ '/' :: joinChar '/' ((t :: rest).map String.data)
    rw [List.append_assoc]
    rfl

/-- A character of a separator-join is the separator or a segment character. -/
theorem mem_joinChar {sep c : Char} :
    ∀ {gs : List (List Char)}, c ∈ joinChar sep gs → c = sep ∨ ∃ g ∈ gs, c ∈ g
  | [], h => absurd h (List.not_mem_nil c)
  | [g], h => .inr ⟨g, by simp, h⟩
  | g :: g2 :: gs, h => by
    rw [show joinChar sep (g :: g2 :: gs) = g ++ sep :: joinChar sep (g2 :: gs)
      from rfl] at h
    rcases List.mem_append.mp h with h1 | h2
    · exact .inr ⟨g, by simp, h1⟩
    · rcases List.mem_cons.mp h2 with h3 | h4
      · exact .inl h3
      · rcases mem_joinChar h4 with h5 | ⟨g0, hg0, hc0⟩
        · exact .inl h5
        · exact .inr ⟨g0, List.mem_cons_of_mem g hg0, hc0⟩

/-- `deBackslash` is the identity on backslash-free character lists. -/
theorem map_deBackslash_id {cs : List Char} (h : ∀ c ∈ cs, c ≠ '\\') :
    cs.map deBackslash = cs := by
  induction cs with
  | nil => rfl
  | cons c t ih =>
    rw [List.map_cons, ih (fun x hx => h x (List.mem_cons_of_mem c hx))]
    have hc : c ≠ '\\' := h c (List.mem_cons_self c t)
    simp [deBackslash, hc]

/-- Good segments render without backslash characters. -/
theorem joinSlash_no_backslash {L : List String} (h : L.all goodSeg = true) :
    ∀ c ∈ (joinSlash L).data, c ≠ '\\' := by
  intro c hc
  rw [joinSlash_data] at hc
  rcases mem_joinChar hc with h1 | ⟨g, hg, hcg⟩
  · rw [h1]; decide
  · obtain ⟨s, hs, hsg⟩ := List.mem_map.mp hg
    have hgood := (List.all_eq_true.mp h) s hs
    simp only [goodSeg, Bool.and_eq_true] at hgood
    have h4 := (List.all_eq_true.mp hgood.2) c (hsg ▸ hcg)
    simp only [Bool.and_eq_true, Bool.not_eq_true', beq_eq_false_iff_ne] at h4
    exact h4.2

/-- Good segments render without separator characters. -/
theorem string_data_sepfree {L : List String} (h : L.all goodSeg = true) :
    ∀ g ∈ L.map String.data, ∀ c ∈ g, c ≠ '/' := by
  intro g hg c hcg
  obtain ⟨s, hs, hsg⟩ := List.mem_map.mp hg
  have hgood := (List.all_eq_true.mp h) s hs
  simp only [goodSeg, Bool.and_eq_true] at hgood
  have h4 := (List.all_eq_true.mp hgood.2) c (hsg ▸ hcg)
  simp only [Bool.and_eq_true, Bool.not_eq_true', beq_eq_false_iff_ne] at h4
  exact h4.1

/-- `String.mk` inverts `String.data` on a mapped list. -/
theorem map_mk_data (L : List String) : (L.map String.data).map String.mk = L := by
  rw [List.map_map]
  have h : (String.mk ∘ String.data) = id := funext (fun s => rfl)
  rw [h, List.map_id]

/-- Joining good segment lists with `/` is injective. -/
theorem joinSlash_inj {L₁ L₂ : List String} (h₁ : L₁.all goodSeg = true)
    (h₂ : L₂.all goodSeg = true) (hn₁ : L₁ ≠ []) (hn₂ : L₂ ≠ [])
    (h : joinSlash L₁ = joinSlash L₂) : L₁ = L₂ := by
  have hd : joinChar '/' (L₁.map String.data) = joinChar '/' (L₂.map String.data) := by
    rw [← joinSlash_data, ← joinSlash_data, h]
  have hm₁ : L₁.map String.data ≠ [] := by simpa using hn₁
  have hm₂ : L₂.map String.data ≠ [] := by simpa using hn₂
  have hs₁ := splitOnChar_joinChar '/' (L₁.map String.data) hm₁ (string_data_sepfree h₁)
  have hs₂ := splitOnChar_joinChar '/' (L₂.map String.data) hm₂ (string_data_sepfree h₂)
  have heq : L₁.map String.data = L₂.map String.data := by
    rw [← hs₁, ← hs₂, hd]
  rw [← map_mk_data L₁, ← map_mk_data L₂, heq]

/-- Rendering the workspace-relative key `base ++ L` recovers `joinSlash L`
when the segments are well formed. -/
theorem renderRel_append {base L : List String} (h : L.all goodSeg = true) :
    renderRel base (base ++ L) = joinSlash L := by
  unfold renderRel
  rw [List.drop_left, map_deBackslash_id (joinSlash_no_backslash h)]

/-- Totality of the code-point lexicographic order. -/
theorem listCharLe_total : ∀ a b : List Char,
    listCharLe a b = true ∨ listCharLe b a = true
  | [], _ => .inl rfl
  | _ :: _, [] => .inr rfl
  | a :: as, b :: bs => by
    have ih := listCharLe_total as bs
    unfold listCharLe
    simp only [Bool.or_eq_true, decide_eq_true_eq, Bool.and_eq_true, beq_iff_eq]
    rcases Nat.lt_trichotomy a.toNat b.toNat with h | h | h
    · exact .inl (.inl h)
    · rcases ih with ih | ih
      · exact .inl (.inr ⟨h, ih⟩)
      · exact .inr (.inr ⟨h.symm, ih⟩)
    · exact .inr (.inl h)

/-- Transitivity of the code-point lexicographic order. -/
theorem listCharLe_trans : ∀ a b c : List Char, listCharLe a b = true →
    listCharLe b c = true → listCharLe a c = true
  | [], _, _, _, _ => rfl
  | _ :: _, [], _, h, _ => nomatch h
  | _ :: _, _ :: _, [], _, h => nomatch h
  | a :: as, b :: bs, c :: cs, h1, h2 => by
    have iht := listCharLe_trans as bs cs
    unfold listCharLe at h1 h2 ⊢
    simp only [Bool.or_eq_true, decide_eq_true_eq, Bool.and_eq_true, beq_iff_eq]
      at h1 h2 ⊢
    rcases h1 with h1 | ⟨h1e, h1r⟩ <;> rcases h2 with h2 | ⟨h2e, h2r⟩
    · exact .inl (by omega)
    · exact .inl (by omega)
    · exact .inl (by omega)
    · exact .inr ⟨by omega, iht h1r h2r⟩

/-- Totality, at the string level. -/
theorem strLe_total (a b : String) : strLe a b = true ∨ strLe b a = true :=
  listCharLe_total a.data b.data

/-- Transitivity, at the string level. -/
theorem strLe_trans {a b c : String} (h1 : strLe a b = true)
    (h2 : strLe b c = true) : strLe a c = true :=
  listCharLe_trans _ _ _ h1 h2

/-- Evaluation of a successful `upsert_file`: missing parents are recorded
and the file entry is overwritten. -/
theorem upsert_eval (cfg : Config) (rt : Runtime) (σ : Sys)
    (sandbox_id path content : String)
    (hne : relSegs path ≠ []) (hnd : ".." ∉ relSegs path)
    (hdir : isDir σ (sandbox_dir cfg sandbox_id) = true)
    (htd : isDir σ (sandbox_dir cfg sandbox_id ++ relSegs path) = false)
    (hanc : (initSegs (sandbox_dir cfg sandbox_id ++ relSegs path).dropLast).any
      (fun q => isFile σ q) = false) :
    upsert_file cfg rt σ sandbox_id path content = (.ok (),
      { σ with
        dirs := (initSegs (sandbox_dir cfg sandbox_id ++ relSegs path).dropLast).filter (fun q => !(σ.dirs.contains q)) ++ σ.dirs,
        files := σ.files.filter (fun f => f.1 != (sandbox_dir cfg sandbox_id ++ relSegs path)) ++ [(sandbox_dir cfg sandbox_id ++ relSegs path, content)] }, []) := by
  have hex : pathExists σ (sandbox_dir cfg sandbox_id) = true := by
    simp [pathExists, hdir]
  have hsp : safe_path (sandbox_dir cfg sandbox_id) path false =
      .ok (sandbox_dir cfg sandbox_id ++ relSegs path) := by
    unfold safe_path
    rw [resolveSegs_no_dotdot _ _ hnd]
    rw [if_neg (append_ne_self hne), if_pos (segPre_append _ _)]
  have hmk : mkdirp σ (sandbox_dir cfg sandbox_id ++ relSegs path).dropLast = .ok
      { σ with dirs := (initSegs (sandbox_dir cfg sandbox_id ++ relSegs path).dropLast).filter (fun q => !(σ.dirs.contains q)) ++ σ.dirs } := by
    unfold mkdirp
    rw [hanc]
    simp
  have hKne : sandbox_dir cfg sandbox_id ++ relSegs path ≠ [] := by
    intro h0
    exact hne (List.append_eq_nil.mp h0).2
  simp only [upsert_file, hex, hsp, hmk, Bool.not_true, Bool.false_eq_true, if_false]
  rw [isDir_mkdirp_self hKne htd]
  simp

/-- Inversion of a successful `list_files` call: the directory argument
resolved (root allowed), and the result is sorted and holds exactly the
renderings of the regular files strictly under the resolved directory. -/
theorem list_files_ok (cfg : Config) (rt : Runtime) (σ : Sys) (sandbox_id d : String)
    (L : List String) (h : (list_files cfg rt σ sandbox_id d).1 = .ok L) :
    List.Sorted (fun a b => strLe a b = true) L ∧
    ∃ D, safe_path (sandbox_dir cfg sandbox_id) d true = .ok D ∧
      ∀ s, s ∈ L ↔ ∃ k c0, (k, c0) ∈ σ.files ∧ segPre D k = true ∧ k ≠ D ∧
        s = renderRel (sandbox_dir cfg sandbox_id) k := by
  haveI iTot : IsTotal String (fun a b => strLe a b = true) := ⟨strLe_total⟩
  haveI iTrans : IsTrans String (fun a b => strLe a b = true) :=
    ⟨fun a b c => strLe_trans⟩
  simp only [list_files] at h
  split at h
  · simp at h
  · split at h
    · simp at h
    · rename_i D heq
      split at h
      · simp at h
      · simp only [] at h
        have hL : (((σ.files.filter (fun f => segPre D f.1 && f.1 != D)).map
            (fun f => renderRel (sandbox_dir cfg sandbox_id) f.1)).insertionSort
              (fun a b => strLe a b = true)) = L := by
          exact Except.ok.inj h
        subst hL
        constructor
        · exact List.sorted_insertionSort _ _
        · refine ⟨D, heq, ?_⟩
          intro s
          rw [(List.perm_insertionSort _ _).mem_iff]
          simp only [List.mem_map, List.mem_filter, Bool.and_eq_true, bne_iff_ne]
          constructor
          · rintro ⟨f, ⟨hmem, hpre, hne2⟩, hrend⟩
            exact ⟨f.1, f.2, hmem, hpre, hne2, hrend.symm⟩
          · rintro ⟨k, c0, hmem, hpre, hne2, hrend⟩
            exact ⟨(k, c0), ⟨hmem, hpre, hne2⟩, hrend.symm⟩

/-- Evaluation of `list_files` at the workspace root of an existing sandbox
directory. -/
theorem list_files_root_eval (cfg : Config) (rt : Runtime) (τ : Sys)
    (sandbox_id : String)
    (hdirE : isDir τ (sandbox_dir cfg sandbox_id) = true) :
    list_files cfg rt τ sandbox_id "/" = (.ok
      (((τ.files.filter (fun f => segPre (sandbox_dir cfg sandbox_id) f.1 &&
          f.1 != sandbox_dir cfg sandbox_id)).map
        (fun f => renderRel (sandbox_dir cfg sandbox_id) f.1)).insertionSort
          (fun a b => strLe a b = true)), τ, []) := by
  have hpe : pathExists τ (sandbox_dir cfg sandbox_id) = true := by
    simp [pathExists, hdirE]
  have hslash : relSegs "/" = [] := by decide
  have hsafe : safe_path (sandbox_dir cfg sandbox_id) "/" true =
      .ok (sandbox_dir cfg sandbox_id) := by
    unfold safe_path
    rw [hslash]
    simp [resolveSegs]
  simp only [list_files, hpe, hsafe, hdirE, Bool.not_true, Bool.false_eq_true,
    if_false, Bool.and_self]

/-- In a file table that decomposes as older entries (none keyed by the
written path) plus the fresh entry, the rendering of the written path occurs
exactly once among the renderings of the files under the workspace root. -/
theorem count_render_once (base : List String) (path content : String)
    (A : List (List String × String))
    (hp : path = joinSlash (relSegs path))
    (hgood : (relSegs path).all goodSeg = true)
    (hne : relSegs path ≠ [])
    (hAne : ∀ f ∈ A, (f.1 != base ++ relSegs path) = true)
    (hAgood : ∀ f ∈ A, goodRelKey base f.1 = true) :
    List.count path (((A ++ [(base ++ relSegs path, content)]).filter
      (fun f => segPre base f.1 && f.1 != base)).map
        (fun f => renderRel base f.1)) = 1 := by
  rw [List.filter_append, List.filter_singleton]
  have hgK : (segPre base (base ++ relSegs path, content).1 &&
      ((base ++ relSegs path, content).1 != base)) = true := by
    show (segPre base (base ++ relSegs path) && ((base ++ relSegs path) != base)) = true
    rw [segPre_append, bne_iff_ne.mpr (append_ne_self hne)]
    rfl
  rw [hgK]
  simp only [Bool.cond_true]
  rw [List.map_append, List.count_append]
  have hrK : renderRel base (base ++ relSegs path) = path := by
    rw [renderRel_append hgood]
    exact hp.symm
  have hzero : List.count path ((A.filter
      (fun f => segPre base f.1 && f.1 != base)).map
        (fun f => renderRel base f.1)) = 0 := by
    rw [List.count_eq_zero]
    intro hcmem
    obtain ⟨f, hfmem, hrend⟩ := List.mem_map.mp hcmem
    have hfg := List.mem_filter.mp hfmem
    have hfg2 := hfg.2
    rw [Bool.and_eq_true] at hfg2
    obtain ⟨hpre, hneqb⟩ := hfg2
    have hgk := hAgood f hfg.1
    unfold goodRelKey at hgk
    rw [hpre] at hgk
    simp only [Bool.not_true, Bool.false_or] at hgk
    have hfeq := eq_append_drop_of_segPre hpre
    have hdropne : f.1.drop base.length ≠ [] := by
      intro h0
      rw [h0, List.append_nil] at hfeq
      exact (bne_iff_ne.mp hneqb) hfeq
    have hr1 : renderRel base f.1 = joinSlash (f.1.drop base.length) := by
      conv_lhs => rw [hfeq]
      exact renderRel_append hgk
    rw [hr1] at hrend
    have hseq := joinSlash_inj hgk hgood hdropne hne (by rw [hrend]; exact hp)
    exact (bne_iff_ne.mp (hAne f hfg.1)) (by rw [hfeq, hseq])
  rw [hzero]
  simp [hrK]

/-- C9: after writing a canonical relative path into an existing sandbox,
listing the workspace root succeeds and includes that path exactly once in a
lexicographically sorted listing; and in general every successful listing is
sorted and enumerates exactly the regular files strictly under the requested
directory, rendered workspace-root-relative with `/` separators. -/
theorem c9_upsert_then_list (cfg : Config) (rt : Runtime) (σ : Sys)
    (sandbox_id path content : String)
    (hp : path = joinSlash (relSegs path))
    (hgood : (relSegs path).all goodSeg = true)
    (hne : relSegs path ≠ [])
    (hdir : isDir σ (sandbox_dir cfg sandbox_id) = true)
    (htd : isDir σ (sandbox_dir cfg sandbox_id ++ relSegs path) = false)
    (hanc : (initSegs (sandbox_dir cfg sandbox_id ++ relSegs path).dropLast).any
      (fun q => isFile σ q) = false)
    (hkeys : σ.files.all
      (fun f => goodRelKey (sandbox_dir cfg sandbox_id) f.1) = true) :
    (upsert_file cfg rt σ sandbox_id path content).1 = .ok () ∧
    (∃ L, (list_files cfg rt (upsert_file cfg rt σ sandbox_id path content).2.1
        sandbox_id "/").1 = .ok L ∧
      List.count path L = 1 ∧ List.Sorted (fun a b => strLe a b = true) L) ∧
    (∀ σ2 d L2, (list_files cfg rt σ2 sandbox_id d).1 = .ok L2 →
      List.Sorted (fun a b => strLe a b = true) L2 ∧
      ∃ D, safe_path (sandbox_dir cfg sandbox_id) d true = .ok D ∧
        ∀ s, s ∈ L2 ↔ ∃ k c0, (k, c0) ∈ σ2.files ∧ segPre D k = true ∧ k ≠ D ∧
          s = renderRel (sandbox_dir cfg sandbox_id) k) := by
  haveI iTot : IsTotal String (fun a b => strLe a b = true) := ⟨strLe_total⟩
  haveI iTrans : IsTrans String (fun a b => strLe a b = true) :=
    ⟨fun a b c => strLe_trans⟩
  have hnd : ".." ∉ relSegs path := by
    intro hc
    have h2 := (List.all_eq_true.mp hgood) _ hc
    have h3 : goodSeg ".." = false := by decide
    rw [h3] at h2
    cases h2
  have hup1 := upsert_eval cfg rt σ sandbox_id path content hne hnd hdir htd hanc
  refine ⟨by rw [hup1], ?_, ?_⟩
  · rw [hup1]
    have hdirE : isDir { σ with
        dirs := (initSegs (sandbox_dir cfg sandbox_id ++ relSegs path).dropLast).filter (fun q => !(σ.dirs.contains q)) ++ σ.dirs,
        files := σ.files.filter (fun f => f.1 != (sandbox_dir cfg sandbox_id ++ relSegs path)) ++ [(sandbox_dir cfg sandbox_id ++ relSegs path, content)] }
        (sandbox_dir cfg sandbox_id) = true :=
      contains_append_of_right hdir
    rw [list_files_root_eval cfg rt _ sandbox_id hdirE]
    refine ⟨_, rfl, ?_, ?_⟩
    · rw [(List.perm_insertionSort _ _).count_eq]
      exact count_render_once (sandbox_dir cfg sandbox_id) path content
        (σ.files.filter
          (fun f => f.1 != (sandbox_dir cfg sandbox_id ++ relSegs path)))
        hp hgood hne
        (fun f hf => (List.mem_filter.mp hf).2)
        (fun f hf => (List.all_eq_true.mp hkeys) f (List.mem_filter.mp hf).1)
    · exact List.sorted_insertionSort _ _
  · intro σ2 d L2 hL2
    exact list_files_ok cfg rt σ2 sandbox_id d L2 hL2

/-- C9 witness. -/
theorem c9_witness :
    (upsert_file ⟨["sb"], "cs", "/workspace", true⟩ ⟨none, none, fun _ _ => (0, "", "")⟩
        ⟨[["sb"], ["sb", "s1"]], [], ["cs-s1"]⟩ "s1" "a/b.txt" "hi").1 = .ok () ∧
    (∃ L, (list_files ⟨["sb"], "cs", "/workspace", true⟩
        ⟨none, none, fun _ _ => (0, "", "")⟩
        (upsert_file ⟨["sb"], "cs", "/workspace", true⟩
          ⟨none, none, fun _ _ => (0, "", "")⟩
          ⟨[["sb"], ["sb", "s1"]], [], ["cs-s1"]⟩ "s1" "a/b.txt" "hi").2.1
        "s1" "/").1 = .ok L ∧
      List.count "a/b.txt" L = 1 ∧ List.Sorted (fun a b => strLe a b = true) L) ∧
    (∀ σ2 d L2, (list_files ⟨["sb"], "cs", "/workspace", true⟩
        ⟨none, none, fun _ _ => (0, "", "")⟩ σ2 "s1" d).1 = .ok L2 →
      List.Sorted (fun a b => strLe a b = true) L2 ∧
      ∃ D, safe_path (sandbox_dir ⟨["sb"], "cs", "/workspace", true⟩ "s1") d true =
          .ok D ∧
        ∀ s, s ∈ L2 ↔ ∃ k c0, (k, c0) ∈ σ2.files ∧ segPre D k = true ∧ k ≠ D ∧
          s = renderRel (sandbox_dir ⟨["sb"], "cs", "/workspace", true⟩ "s1") k) :=
  c9_upsert_then_list ⟨["sb"], "cs", "/workspace", true⟩
    ⟨none, none, fun _ _ => (0, "", "")⟩ ⟨[["sb"], ["sb", "s1"]], [], ["cs-s1"]⟩
    "s1" "a/b.txt" "hi" (by decide) (by decide) (by decide) (by decide) (by decide)
    (by decide) (by decide)
